import Mathlib

/-!
Verification development for the `bsearch` Go library: binary search by key
over line-ordered, bytewise-sorted byte streams, block indexes included.

Byte strings are modelled as `List Nat` (one `Nat` per byte; byte values stay
below 256 in every concrete input, and no arithmetic here can overflow, so no
modular reduction is required). Go `string` values are byte strings as well and
are modelled the same way. Comparison results are `Int` values in {-1, 0, 1},
as returned by `bytes.Compare` and `strings.Compare`.
-/

namespace BSearch

abbrev Bytes := List Nat

/-- Model of Go `bytes.Compare` (and `strings.Compare` on byte strings):
lexicographic bytewise comparison returning -1, 0 or 1. -/
def bytesCompare : Bytes → Bytes → Int
  | [], [] => 0
  | [], _ :: _ => -1
  | _ :: _, [] => 1
  | a :: as, b :: bs =>
      if a < b then -1 else if b < a then 1 else bytesCompare as bs

/-- Model of `PrefixCompare` (bsearch.go 542-554): compare the initial
sequence of `bufa` against `b`, up to `len(b)` bytes only; when `bufa` is
shorter and matches all of its length, the result is -1 (short-is-less). -/
def PrefixCompare (bufa b : Bytes) : Int :=
  if bufa.length < b.length then
    let cmp := bytesCompare bufa (b.take bufa.length)
    if cmp = 0 then -1 else cmp
  else
    bytesCompare (bufa.take b.length) b

/-- Model of `prefixCompareString` (index.go 1190-1202); Go strings are byte
strings and `strings.Compare` agrees with `bytesCompare`, so the algorithm is
the same as `PrefixCompare`. -/
def prefixCompareString (a b : Bytes) : Int :=
  if a.length < b.length then
    let cmp := bytesCompare a (b.take a.length)
    if cmp = 0 then -1 else cmp
  else
    bytesCompare (a.take b.length) b

theorem prefixCompareString_eq_PrefixCompare :
    prefixCompareString = PrefixCompare := rfl

/- ## Basic facts about bytesCompare -/

theorem bytesCompare_nil_left (b : Bytes) (h : b ≠ []) : bytesCompare [] b = -1 := by
  cases b with
  | nil => exact absurd rfl h
  | cons x xs => rfl

theorem bytesCompare_self (a : Bytes) : bytesCompare a a = 0 := by
  induction a with
  | nil => rfl
  | cons x xs ih => simp [bytesCompare, ih]

theorem bytesCompare_eq_zero_iff (a b : Bytes) : bytesCompare a b = 0 ↔ a = b := by
  induction a generalizing b with
  | nil => cases b <;> simp [bytesCompare]
  | cons x xs ih =>
    cases b with
    | nil => simp [bytesCompare]
    | cons y ys =>
      by_cases hxy : x < y
      · simp [bytesCompare, hxy]
        intro h; omega
      · by_cases hyx : y < x
        · simp [bytesCompare, hxy, hyx]
          intro h; omega
        · have hxeq : x = y := by omega
          simp [bytesCompare, hxy, hyx, hxeq, ih]

theorem bytesCompare_trichotomy (a b : Bytes) :
    bytesCompare a b = -1 ∨ bytesCompare a b = 0 ∨ bytesCompare a b = 1 := by
  induction a generalizing b with
  | nil => cases b <;> simp [bytesCompare]
  | cons x xs ih =>
    cases b with
    | nil => simp [bytesCompare]
    | cons y ys =>
      by_cases hxy : x < y
      · simp [bytesCompare, hxy]
      · by_cases hyx : y < x
        · simp [bytesCompare, hxy, hyx]
        · simpa [bytesCompare, hxy, hyx] using ih ys

/-- Unfolding rule for `PrefixCompare` on two cons cells: the heads are
compared first and the comparison recurses on the tails when they agree. -/
theorem PrefixCompare_cons (x : Nat) (xs : Bytes) (y : Nat) (ys : Bytes) :
    PrefixCompare (x :: xs) (y :: ys) =
      if x < y then -1 else if y < x then 1 else PrefixCompare xs ys := by
  by_cases hxy : x < y
  · by_cases hlen : xs.length < ys.length
    · have h1 : (x :: xs).length < (y :: ys).length := by simp; omega
      simp [PrefixCompare, h1, hlen, bytesCompare, hxy]
    · have h1 : ¬ (x :: xs).length < (y :: ys).length := by simp; omega
      simp [PrefixCompare, h1, hlen, bytesCompare, hxy]
  · by_cases hyx : y < x
    · by_cases hlen : xs.length < ys.length
      · have h1 : (x :: xs).length < (y :: ys).length := by simp; omega
        simp [PrefixCompare, h1, hlen, bytesCompare, hxy, hyx]
      · have h1 : ¬ (x :: xs).length < (y :: ys).length := by simp; omega
        simp [PrefixCompare, h1, hlen, bytesCompare, hxy, hyx]
    · have hxeq : x = y := by omega
      subst hxeq
      by_cases hlen : xs.length < ys.length
      · have h1 : (x :: xs).length < (x :: ys).length := by simp; omega
        simp [PrefixCompare, h1, hlen, bytesCompare]
      · have h1 : ¬ (x :: xs).length < (x :: ys).length := by simp; omega
        simp [PrefixCompare, h1, hlen, bytesCompare]

theorem PrefixCompare_nil_right (a : Bytes) : PrefixCompare a [] = 0 := by
  cases a <;> simp [PrefixCompare, bytesCompare]

theorem PrefixCompare_nil_left (b : Bytes) (h : b ≠ []) :
    PrefixCompare [] b = -1 := by
  cases b with
  | nil => exact absurd rfl h
  | cons y ys => simp [PrefixCompare, bytesCompare]

/-- Characterization: `PrefixCompare a b = 0` exactly when `b` is an initial
segment of `a`. -/
theorem PrefixCompare_eq_zero_iff (a b : Bytes) :
    PrefixCompare a b = 0 ↔ b.length ≤ a.length ∧ a.take b.length = b := by
  induction a generalizing b with
  | nil =>
    cases b with
    | nil => simp [PrefixCompare, bytesCompare]
    | cons y ys => simp [PrefixCompare_nil_left (y :: ys) (by simp)]
  | cons x xs ih =>
    cases b with
    | nil => simp [PrefixCompare_nil_right]
    | cons y ys =>
      rw [PrefixCompare_cons]
      by_cases hxy : x < y
      · simp [hxy]
        intro h; omega
      · by_cases hyx : y < x
        · simp [hxy, hyx]
          intro h; omega
        · have hxeq : x = y := by omega
          subst hxeq
          simp [hxy, hyx, ih ys, Nat.succ_le_succ_iff]

/-- Characterization: `PrefixCompare a b = 1` exactly when the bytes of `a`
exceed those of `b` at the first disagreement within `b`'s length. -/
theorem PrefixCompare_eq_one_iff (a b : Bytes) :
    PrefixCompare a b = 1 ↔
      bytesCompare a b = 1 ∧ ¬ (b.length ≤ a.length ∧ a.take b.length = b) := by
  induction a generalizing b with
  | nil =>
    cases b with
    | nil => simp [PrefixCompare, bytesCompare]
    | cons y ys => simp [PrefixCompare_nil_left (y :: ys) (by simp), bytesCompare]
  | cons x xs ih =>
    cases b with
    | nil => simp [PrefixCompare_nil_right, bytesCompare]
    | cons y ys =>
      rw [PrefixCompare_cons]
      by_cases hxy : x < y
      · simp [hxy, bytesCompare]
      · by_cases hyx : y < x
        · simp [hxy, hyx, bytesCompare]
          omega
        · have hxeq : x = y := by omega
          subst hxeq
          simp [hxy, hyx, bytesCompare, ih ys, Nat.succ_le_succ_iff]

/-- Short-is-less: a strictly shorter `a` that matches `b`'s initial bytes
compares as -1. -/
theorem PrefixCompare_short_lt (a b : Bytes) (hlen : a.length < b.length)
    (heq : a = b.take a.length) : PrefixCompare a b = -1 := by
  have h0 : bytesCompare a (b.take a.length) = 0 :=
    (bytesCompare_eq_zero_iff _ _).2 heq
  simp [PrefixCompare, hlen, h0]

/-- Monotonicity of the prefix comparator in its first argument: lowering the
compared byte string lexicographically cannot raise the comparison result
past 0. This is what lets a binary search over sorted keys use it. -/
theorem PrefixCompare_mono (k a b : Bytes) (hab : bytesCompare a b ≠ 1)
    (hb : PrefixCompare b k ≤ 0) : PrefixCompare a k ≤ 0 := by
  induction k generalizing a b with
  | nil => simp [PrefixCompare_nil_right]
  | cons kh kt ih =>
    cases a with
    | nil => simp [PrefixCompare_nil_left (kh :: kt) (by simp)]
    | cons ah at' =>
      cases b with
      | nil => simp [bytesCompare] at hab
      | cons bh bt =>
        rw [PrefixCompare_cons] at hb
        rw [PrefixCompare_cons]
        by_cases h1 : ah < kh
        · simp [h1]
        · by_cases h2 : kh < ah
          · simp [h1, h2]
            exfalso
            by_cases h3 : bh < kh
            · -- ah ≥ kh > bh, so bytesCompare a b = 1, contradiction
              have : bh < ah := by omega
              simp [bytesCompare, Nat.lt_asymm this, this] at hab
            · by_cases h4 : kh < bh
              · simp [h3, h4] at hb
              · have hbk : bh = kh := by omega
                have : bh < ah := by omega
                simp [bytesCompare, Nat.lt_asymm this, this] at hab
          · have hak : ah = kh := by omega
            simp [h1, h2]
            by_cases h3 : bh < kh
            · -- bh < kh = ah so bytesCompare a b = 1, contradiction
              have : bh < ah := by omega
              simp [bytesCompare, Nat.lt_asymm this, this] at hab
            · by_cases h4 : kh < bh
              · simp [h3, h4] at hb
              · have hbk : bh = kh := by omega
                have hab' : bytesCompare at' bt ≠ 1 := by
                  have : ¬ ah < bh := by omega
                  have h5 : ¬ bh < ah := by omega
                  simpa [bytesCompare, this, h5] using hab
                simp [h3, h4] at hb
                exact ih at' bt hab' hb

theorem PrefixCompare_trichotomy (a b : Bytes) :
    PrefixCompare a b = -1 ∨ PrefixCompare a b = 0 ∨ PrefixCompare a b = 1 := by
  unfold PrefixCompare
  by_cases h : a.length < b.length
  · rcases bytesCompare_trichotomy a (b.take a.length) with h1 | h1 | h1 <;> simp [h, h1]
  · rcases bytesCompare_trichotomy (a.take b.length) b with h1 | h1 | h1 <;> simp [h, h1]

/- ## Index data model (index.go) -/

/-- Model of `IndexEntry` (index.go 651-655). File offsets and lengths are
`int64` in Go; they are non-negative throughout, so `Nat` is used. -/
structure IndexEntry where
  key : Bytes
  offset : Nat
  length : Nat
deriving Repr, DecidableEq, Inhabited

/-- Model of `Index` (index.go 658-670), restricted to the persisted fields. -/
structure Index where
  blocksize : Nat
  delimiter : Bytes
  epoch : Int
  filepath : String
  header : Bool
  keysIndexFirst : Bool
  keysUnique : Bool
  length : Nat
  list : List IndexEntry
  version : Nat
deriving Repr, DecidableEq, Inhabited

/-- Error values of the package (bsearch.go 28-33, index.go 627-633); the
formatted errors of `generateLineIndex` and `processBlock` are dedicated
constructors. -/
inductive BsError where
  | notFound
  | keyExceedsBlocksize
  | notFile
  | compressedNoIndex
  | indexNotFound
  | indexExpired
  | indexEmpty
  | indexPathMismatch
  | indexEntryNotFound
  | noIndexFound
  | unknownDelimiter
  | sortViolation (prev cur : Bytes)
  | lineWithoutDelimiter
deriving Repr, DecidableEq

/- ## Block locator (index.go 1066-1156) -/

/-- One iteration of the binary-search loop of `blockEntryLE`
(index.go 1082-1102): `none` means the loop exits (either because
`end - begin` reached 0 or through the `end == mid` break), `some (b, e)`
is the updated pair. -/
def leStep (list : List IndexEntry) (keystr : Bytes) (b e : Nat) : Option (Nat × Nat) :=
  if b < e then
    let mid0 := (e - b) / 2 + b
    let mid := if mid0 = b then mid0 + 1 else mid0
    if prefixCompareString (list.getD mid default).key keystr ≤ 0 then some (mid, e)
    else if e = mid then none
    else some (b, mid)
  else none

/-- Fuelled driver of the `blockEntryLE` loop. The fuel only bounds the
iteration count; `leLoopF_stable` below proves that `e - b` iterations always
suffice, so the fuel passed by `Index.blockEntryLE` is never exhausted. -/
def leLoopF (list : List IndexEntry) (keystr : Bytes) : Nat → Nat → Nat → Nat
  | 0, b, _ => b
  | fuel + 1, b, e =>
      match leStep list keystr b e with
      | none => b
      | some (b', e') => leLoopF list keystr fuel b' e'

/-- Model of `blockEntryLE` (index.go 1071-1105). The guard compares the
first entry's key to the query with the plain bytewise order (Go `>` on
strings), not with the prefix comparator. -/
def Index.blockEntryLE (i : Index) (key : Bytes) : Except BsError (Nat × IndexEntry) :=
  if bytesCompare (i.list.getD 0 default).key key = 1 then
    Except.error BsError.indexEntryNotFound
  else
    let b := leLoopF i.list key i.list.length 0 (i.list.length - 1)
    Except.ok (b, i.list.getD b default)

/-- Modelled from the spec: the lower-case byte-slice comparator
`prefixCompare` called by `blockEntryLT` (index.go 1134) is not among the
provided sources; by the comparator contract of the spec it has the same
semantics as `PrefixCompare`. -/
def prefixCompare (a b : Bytes) : Int := PrefixCompare a b

/-- One iteration of the binary-search loop of `blockEntryLT`
(index.go 1126-1144); identical to `leStep` except that the descent condition
is `cmp == -1` instead of `cmp <= 0`. -/
def ltStep (list : List IndexEntry) (key : Bytes) (b e : Nat) : Option (Nat × Nat) :=
  if b < e then
    let mid0 := (e - b) / 2 + b
    let mid := if mid0 = b then mid0 + 1 else mid0
    if prefixCompare (list.getD mid default).key key = -1 then some (mid, e)
    else if e = mid then none
    else some (b, mid)
  else none

/-- Fuelled driver of the `blockEntryLT` loop; see `leLoopF`. -/
def ltLoopF (list : List IndexEntry) (key : Bytes) : Nat → Nat → Nat → Nat
  | 0, b, _ => b
  | fuel + 1, b, e =>
      match ltStep list key b e with
      | none => b
      | some (b', e') => ltLoopF list key fuel b' e'

/-- Model of `blockEntryLT` (index.go 1113-1147). -/
def Index.blockEntryLT (i : Index) (key : Bytes) : Nat × IndexEntry :=
  let b := ltLoopF i.list key i.list.length 0 (i.list.length - 1)
  (b, i.list.getD b default)

/-- Model of `blockEntryN` (index.go 1151-1156); the Go `n < 0` guard is
vacuous for `Nat`. -/
def Index.blockEntryN (i : Index) (n : Nat) : Option IndexEntry :=
  if n ≥ i.list.length then none else some (i.list.getD n default)

/-- Modelled from the spec: `BlockEntryN` (called at bsearch.go 413 and 457)
is not among the provided sources; the spec's block-enumeration interface
("returns entry n and a validity flag, used by the line scanner to spill into
the next block") is exactly `blockEntryN`, of which this is the public face. -/
def Index.BlockEntryN (i : Index) (n : Nat) : Option IndexEntry :=
  i.blockEntryN n

/-- Modelled from the spec: `BlockEntry` (called at bsearch.go 378 and 432) is
not among the provided sources. Per the spec's dispatch section the block loop
starts at `blockEntryLE(key)`; when even the first entry exceeds the key the
scan can only start at the first entry, the conservative fallback the spec
gives for the LT variant. -/
def Index.BlockEntry (i : Index) (key : Bytes) : Nat × IndexEntry :=
  match i.blockEntryLE key with
  | Except.ok (e, entry) => (e, entry)
  | Except.error _ => (0, i.list.getD 0 default)

/- ## Line scanner (bsearch.go 234-348) -/

/-- Fields of `Searcher` (bsearch.go 48-65) that the pure scanning routines
consult: the comparison function, the match-less-than-or-equal flag and the
word-boundary flag. -/
structure SearchCfg where
  compare : Bytes → Bytes → Int
  matchLE : Bool
  boundary : Bool

/-- Model of `getNBytesFrom` (bsearch.go 234-236). The Go slice expression
reads capacity bytes past the buffer length when fewer than `n` bytes remain;
for a freshly allocated (zero-filled) buffer those bytes are zero, which the
take-truncation below matches through the short-is-less comparator rule. -/
def getNBytesFrom (buf : Bytes) (offset n : Nat) : Bytes :=
  (buf.drop offset).take n

/-- Model of `bytes.IndexByte(buf, c)`: index of the first occurrence of `c`,
`none` for Go's -1. -/
def indexByte : Bytes → Nat → Option Nat
  | [], _ => none
  | a :: as, c => if a = c then some 0 else (indexByte as c).map (· + 1)

/-- Shared return of `scanLineOffset` (bsearch.go 283-288): under
less-than-or-equal semantics a recorded trailing position is returned,
otherwise -1. -/
def loPost (s : SearchCfg) (trailing : Int) (terminate : Bool) : Int × Bool :=
  if s.matchLE ∧ trailing > -1 then (trailing, terminate) else (-1, terminate)

/-- Loop of `scanLineOffset` (bsearch.go 245-289), fuelled: each iteration
either returns or advances `offset` past the next newline, so `buf.length`
iterations always suffice (`scanLineOffsetF_isSome`); `none` is fuel
exhaustion and is never produced by the wrapper `scanLineOffset`. -/
def scanLineOffsetF (s : SearchCfg) (buf k : Bytes) :
    Nat → Nat → Int → Option (Int × Bool)
  | 0, _, _ => none
  | fuel + 1, offset, trailing =>
    if offset < buf.length then
      let c := s.compare (getNBytesFrom buf offset k.length) k
      if c = 0 then some ((offset : Int), false)
      else if c = 1 then some (loPost s trailing true)
      else
        match indexByte (buf.drop offset) 10 with
        | none => some (loPost s trailing false)
        | some nlidx => scanLineOffsetF s buf k fuel (offset + nlidx + 1) (offset : Int)
    else
      some (loPost s trailing false)

/-- Model of `scanLineOffset` (bsearch.go 245-289): offset of the first line
of `buf` whose prefix compares equal to `k`, with a terminate flag. -/
def scanLineOffset (s : SearchCfg) (buf k : Bytes) : Int × Bool :=
  (scanLineOffsetF s buf k (buf.length + 1) 0 (-1)).getD (-1, false)

/-- Loop of `scanLinesMatching` (bsearch.go 307-346), fuelled; `none` is fuel
exhaustion and is never produced by the wrapper. -/
def scanLinesMatchingF (s : SearchCfg) (buf b : Bytes) (n : Nat) :
    Nat → Nat → List Bytes → Option (List Bytes × Bool)
  | 0, _, _ => none
  | fuel + 1, offset, lines =>
    if offset < buf.length then
      if 0 < n ∧ n ≤ lines.length then some (lines.take n, true)
      else
        let c := s.compare (getNBytesFrom buf offset b.length) b
        match indexByte (buf.drop offset) 10 with
        | none =>
          if c < 0 then some (lines, false)
          else if c = 0 then some (lines ++ [buf.drop offset], false)
          else some (lines, true)
        | some nlidx =>
          if c < 0 then scanLinesMatchingF s buf b n fuel (offset + nlidx + 1) lines
          else if c = 0 then
            scanLinesMatchingF s buf b n fuel (offset + nlidx + 1)
              (lines ++ [(buf.drop offset).take nlidx])
          else some (lines, true)
    else some (lines, false)

/-- Model of `scanLinesMatching` (bsearch.go 294-348): all lines of `buf`
beginning with `b` (at most `n` when `n > 0`), plus a terminate flag. Note
that the source consults only the comparison function (and, through
`scanLineOffset`, the matchLE flag): the boundary option plays no part. -/
def scanLinesMatching (s : SearchCfg) (buf b : Bytes) (n : Nat) : List Bytes × Bool :=
  match scanLineOffset s buf b with
  | (offset, terminate) =>
    if offset = -1 ∨ terminate then ([], terminate)
    else (scanLinesMatchingF s buf b n (buf.length + 1) offset.toNat []).getD ([], false)

/-- Model of `checkPrefixMatch` (bsearch.go 499-523), as
(returned line, brk flag, error flag); the error flag stands for the
badly-sorted-file error. The word regexp is `\w`, i.e. `[0-9A-Za-z_]`. -/
def isWordByte (c : Nat) : Bool :=
  (48 ≤ c && c ≤ 57) || (65 ≤ c && c ≤ 90) || (97 ≤ c && c ≤ 122) || c == 95

def checkPrefixMatch (s : SearchCfg) (bufa b : Bytes) : Bytes × Bool × Bool :=
  let cmp := PrefixCompare bufa b
  if cmp < 0 then ([], false, true)
  else if cmp > 0 then ([], true, false)
  else
    if s.boundary ∧ b.length < bufa.length then
      let blast := bufa.getD (b.length - 1) 0
      let bnext := bufa.getD b.length 0
      if (isWordByte blast && isWordByte bnext) ||
          (!isWordByte blast && !isWordByte bnext) then ([], false, false)
      else (bufa, false, false)
    else (bufa, false, false)

/- ## Searcher block loops (bsearch.go 352-492) -/

/-- Model of `readBlockEntry` (bsearch.go 184-208): the block's bytes
`data[entry.offset : entry.offset + entry.length]`; short reads are I/O
failures outside the pure model. -/
def readBlockEntry (data : Bytes) (entry : IndexEntry) : Bytes :=
  (data.drop entry.offset).take entry.length

/-- Block loop of `scanIndexedLines` (bsearch.go 392-417), fuelled: `e`
increases on every continuation and the loop stops once `BlockEntryN` runs
out, so `idx.list.length + 1` iterations always suffice
(`scanIndexedFromF_isSome`). -/
def scanIndexedFromF (s : SearchCfg) (idx : Index) (data b : Bytes) (n : Nat) :
    Nat → Nat → IndexEntry → List Bytes → Option (List Bytes)
  | 0, _, _, _ => none
  | fuel + 1, e, entry, lines =>
    let buf := readBlockEntry data entry
    let res := scanLinesMatching s buf b n
    let lines' := lines ++ res.1
    if res.2 then some lines'
    else
      match idx.BlockEntryN (e + 1) with
      | none => some lines'
      | some entry' => scanIndexedFromF s idx data b n fuel (e + 1) entry' lines'

/-- Model of `scanIndexedLines` (bsearch.go 377-424): start at
`BlockEntry(k)`, append the delimiter to the key, scan block after block, and
turn an empty accumulated list into `ErrNotFound`. The `none` arm is dead:
`scanIndexedFromF_isSome` shows the fuel passed here is never exhausted. -/
def scanIndexedLines (s : SearchCfg) (idx : Index) (data k : Bytes) (n : Nat) :
    Except BsError (List Bytes) :=
  match idx.BlockEntry k with
  | (e, entry) =>
    let b := k ++ idx.delimiter
    match scanIndexedFromF s idx data b n (idx.list.length + 1) e entry [] with
    | none => Except.error BsError.notFound
    | some lines =>
        if lines = [] then Except.error BsError.notFound else Except.ok lines

/-- Block loop of `scanCompressedLines` (bsearch.go 437-461), fuelled.
Faithful to the source, `e` is never incremented: every continuation fetches
entry `e + 1` again, so the fuel is essential — for some inputs no amount of
it suffices. `dblock` maps an index entry to the decompressed content of its
block (`decompressBlockEntry`). -/
def scanCompressedFromF (s : SearchCfg) (idx : Index) (dblock : IndexEntry → Bytes)
    (b : Bytes) (n : Nat) : Nat → Nat → IndexEntry → List Bytes → Option (List Bytes)
  | 0, _, _, _ => none
  | fuel + 1, e, entry, lines =>
    let buf := dblock entry
    let res := scanLinesMatching s buf b n
    let lines' := lines ++ res.1
    if res.2 then some lines'
    else
      match idx.BlockEntryN (e + 1) with
      | none => some lines'
      | some entry' => scanCompressedFromF s idx dblock b n fuel e entry' lines'

/-- Model of `scanCompressedLines` (bsearch.go 431-464): same loop over
decompressed blocks, but the accumulated list is returned without a
not-found error. `some lines` is the Go return `(lines, nil)`; `none` means
the loop has not finished within `fuel` iterations. -/
def scanCompressedLines (s : SearchCfg) (idx : Index) (dblock : IndexEntry → Bytes)
    (k : Bytes) (n : Nat) (fuel : Nat) : Option (List Bytes) :=
  match idx.BlockEntry k with
  | (e, entry) => scanCompressedFromF s idx dblock (k ++ idx.delimiter) n fuel e entry []

/-- Model of `LinesN` (bsearch.go 468-486) on the uncompressed path with an
index attached (when no index is attached the source first builds a transient
one and proceeds identically). -/
def LinesN (s : SearchCfg) (idx : Index) (data k : Bytes) (n : Nat) :
    Except BsError (List Bytes) :=
  scanIndexedLines s idx data k n

/-- Model of `Lines` (bsearch.go 490-492). -/
def Lines (s : SearchCfg) (idx : Index) (data b : Bytes) : Except BsError (List Bytes) :=
  LinesN s idx data b 0

/-- Model of `Line` (bsearch.go 352-358): first element of `LinesN(k, 1)`;
the source returns an empty byte slice alongside any error and when no line
came back. -/
def Line (s : SearchCfg) (idx : Index) (data k : Bytes) : Except BsError Bytes :=
  match LinesN s idx data k 1 with
  | Except.error e => Except.error e
  | Except.ok lines =>
      if lines.length < 1 then Except.ok [] else Except.ok (lines.getD 0 [])

/-- Model of `LinesN` on the compressed path (bsearch.go 469-473):
`scanCompressedLines` with no empty-result error. -/
def LinesNCompressed (s : SearchCfg) (idx : Index) (dblock : IndexEntry → Bytes)
    (k : Bytes) (n : Nat) (fuel : Nat) : Option (List Bytes) :=
  scanCompressedLines s idx dblock k n fuel

/-- Model of `Line` (bsearch.go 352-358) dispatched to the compressed path. -/
def LineCompressed (s : SearchCfg) (idx : Index) (dblock : IndexEntry → Bytes)
    (k : Bytes) (fuel : Nat) : Option Bytes :=
  match LinesNCompressed s idx dblock k 1 fuel with
  | none => none
  | some lines =>
      if lines.length < 1 then some [] else some (lines.getD 0 [])

/- ## Index codec checks (index.go 1009-1064) -/

/-- Environment of `LoadIndex` (index.go 1009-1064) distilled to the facts its
pure checks consult: whether the derived sibling index file exists, the
deserialized index, the dataset's absolute path, and the dataset's
modification time in epoch seconds. -/
structure LoadEnv where
  indexFileExists : Bool
  raw : Index
  absPath : String
  datasetMtime : Int

/-- Model of `LoadIndex` (index.go 1009-1064): missing file, path mismatch and
staleness checks in source order, then the version-0-to-1 default. -/
def LoadIndex (env : LoadEnv) : Except BsError Index :=
  if env.indexFileExists = false then Except.error BsError.indexNotFound
  else if env.raw.filepath ≠ env.absPath then Except.error BsError.indexPathMismatch
  else if env.datasetMtime > env.raw.epoch then Except.error BsError.indexExpired
  else if env.raw.version = 0 then Except.ok { env.raw with version := 1 }
  else Except.ok env.raw

/- ## Line-scan index builder (index.go 793-884) -/

/-- Determines whether `pat` is an initial run of `l` (Go
`bytes.HasPrefix`-style test used to model `bytes.Index`). -/
def startsWithSeq : Bytes → Bytes → Bool
  | _, [] => true
  | [], _ :: _ => false
  | a :: as, b :: bs => a == b && startsWithSeq as bs

/-- Model of `bytes.Index(l, pat)`: position of the first occurrence of the
byte sequence `pat` inside `l`. -/
def indexOfSeq (pat : Bytes) : Bytes → Option Nat
  | [] => if pat = [] then some 0 else none
  | a :: as =>
      if startsWithSeq (a :: as) pat then some 0 else (indexOfSeq pat as).map (· + 1)

/-- Model of `bytes.SplitN(line, delim, 2)[0]`: everything before the first
occurrence of `delim`, the whole line when `delim` does not occur. -/
def splitFirst (delim line : Bytes) : Bytes :=
  match indexOfSeq delim line with
  | none => line
  | some i => line.take i

/-- State threaded through the scanner loop of `generateLineIndex`
(index.go 798-865). `blockNumber` is an `Int` as in the source: it starts
at -1. -/
structure LineIndexState where
  list : List IndexEntry
  blockPosition : Nat
  blockNumber : Int
  prevKey : Bytes
  keysUnique : Bool
  header : Bool
  skipHeader : Bool
deriving Repr, DecidableEq

/-- Rewrites the length of the last produced entry to end it at
`blockPosition` (index.go 847-851 and 872-874). -/
def finalizeLast (list : List IndexEntry) (blockPosition : Nat) : List IndexEntry :=
  match list.getLast? with
  | none => list
  | some last => list.dropLast ++ [{ last with length := blockPosition - last.offset }]

/-- One `scanner.Scan()` iteration of `generateLineIndex` (index.go 804-865):
header skip, key split, the key-ordering switch (with the retroactive-header
reset), the first-line-of-block entry append, and the position/prevKey
update. -/
def genLineStep (blocksize : Nat) (delim : Bytes) (st : LineIndexState)
    (line : Bytes) : Except BsError LineIndexState :=
  if st.skipHeader then
    Except.ok { st with
      skipHeader := false, blockPosition := st.blockPosition + line.length + 1 }
  else
    let key := splitFirst delim line
    let ordered : Except BsError LineIndexState :=
      if bytesCompare st.prevKey key = 1 then
        if st.blockNumber = 0 ∧ st.header = false then
          Except.ok { st with header := true, list := [], blockNumber := -1 }
        else Except.error (BsError.sortViolation st.prevKey key)
      else if bytesCompare st.prevKey key = 0 then
        Except.ok { st with keysUnique := false }
      else Except.ok st
    ordered.map (fun st1 =>
      let currentBlockNumber : Nat := st.blockPosition / blocksize
      let st2 :=
        if (currentBlockNumber : Int) > st1.blockNumber then
          { st1 with
            list := finalizeLast st1.list st.blockPosition ++
              [{ key := key, offset := st.blockPosition, length := 0 }],
            blockNumber := (currentBlockNumber : Int) }
        else st1
      { st2 with
        blockPosition := st.blockPosition + line.length + 1, prevKey := key })

/-- Model of `generateLineIndex` (index.go 793-884) over the dataset's lines
(each without its terminating newline, as delivered by `bufio.Scanner`).
Returns the entry list together with the keys-unique and header flags. -/
def generateLineIndex (blocksize : Nat) (delim : Bytes) (header : Bool)
    (lines : List Bytes) : Except BsError (List IndexEntry × Bool × Bool) :=
  let init : LineIndexState :=
    { list := [], blockPosition := 0, blockNumber := -1, prevKey := [],
      keysUnique := true, header := header, skipHeader := header }
  match lines.foldlM (genLineStep blocksize delim) init with
  | Except.error e => Except.error e
  | Except.ok st =>
      if st.list = [] then Except.error BsError.indexEmpty
      else Except.ok (finalizeLast st.list st.blockPosition, st.keysUnique, st.header)

/- ## Datasets as lists of lines -/

/-- Dataset image of a list of lines: every line followed by a newline byte
(the datasets of the claims are newline-terminated). -/
def joinLines (g : List Bytes) : Bytes :=
  g.foldr (fun l acc => l ++ [10] ++ acc) []

/-- Naive linear scan, worded as in the claims: the dataset's lines whose
first field (up to the delimiter) equals `k`, in dataset order. -/
def naiveMatches (delim : Bytes) (lines : List Bytes) (k : Bytes) : List Bytes :=
  lines.filter (fun l => splitFirst delim l = k)

/-- First line of the naive linear scan, or `none` when there is none. -/
def naiveLine (delim : Bytes) (lines : List Bytes) (k : Bytes) : Option Bytes :=
  (naiveMatches delim lines k).head?

/- ## Claim C3 -/

/-- C3: `PrefixCompare(a, b) = 0` iff `b` is a prefix of `a` (that is,
`len(a) >= len(b)` and `a[:len(b)] == b`); and whenever `len(a) < len(b)` and
`a == b[:len(a)]`, `PrefixCompare(a, b) < 0` (short-is-less). -/
theorem prefixCompare_zero_iff_and_short_less (a b : Bytes) :
    (PrefixCompare a b = 0 ↔ b.length ≤ a.length ∧ a.take b.length = b) ∧
    (a.length < b.length → a = b.take a.length → PrefixCompare a b < 0) := by
  refine ⟨PrefixCompare_eq_zero_iff a b, fun h1 h2 => ?_⟩
  rw [PrefixCompare_short_lt a b h1 h2]
  norm_num

theorem prefixCompare_zero_iff_and_short_less_witness :
    PrefixCompare [97] [97, 98] < 0 :=
  (prefixCompare_zero_iff_and_short_less [97] [97, 98]).2 (by decide) (by decide)

/- ## Claim C10 -/

/-- C10: with the default comparator `PrefixCompare`, every byte sequence
compares equal to the empty key, and `scanLineOffset` on a non-empty buffer
with the empty key returns offset 0 with the terminate flag unset. -/
theorem prefixCompare_empty_key_and_scan_zero (s : SearchCfg) (a buf : Bytes)
    (hcmp : s.compare = PrefixCompare) (hbuf : buf ≠ []) :
    PrefixCompare a [] = 0 ∧ scanLineOffset s buf [] = (0, false) := by
  refine ⟨PrefixCompare_nil_right a, ?_⟩
  have hlen : 0 < buf.length := List.length_pos.2 hbuf
  simp [scanLineOffset, scanLineOffsetF, hlen, hcmp, getNBytesFrom,
    PrefixCompare_nil_right]

theorem prefixCompare_empty_key_and_scan_zero_witness :
    PrefixCompare [5] [] = 0 ∧
      scanLineOffset ⟨PrefixCompare, false, false⟩ [97, 10] [] = (0, false) :=
  prefixCompare_empty_key_and_scan_zero ⟨PrefixCompare, false, false⟩ [5] [97, 10]
    rfl (by decide)

/- ## Claim C7 -/

/-- C7: `LoadIndex` fails with `ErrIndexNotFound` when the sibling index file
is missing; fails with `ErrIndexPathMismatch` when the stored filepath differs
from the dataset's absolute path (regardless of freshness — the path check
precedes the freshness check); fails with `ErrIndexExpired` when the dataset's
modification time exceeds the stored epoch; and on success a missing (zero)
version field defaults to 1. -/
theorem loadIndex_checks (env : LoadEnv) :
    (env.indexFileExists = false → LoadIndex env = Except.error BsError.indexNotFound) ∧
    (env.indexFileExists = true → env.raw.filepath ≠ env.absPath →
      LoadIndex env = Except.error BsError.indexPathMismatch) ∧
    (env.indexFileExists = true → env.raw.filepath = env.absPath →
      env.datasetMtime > env.raw.epoch →
      LoadIndex env = Except.error BsError.indexExpired) ∧
    (env.indexFileExists = true → env.raw.filepath = env.absPath →
      env.datasetMtime ≤ env.raw.epoch → env.raw.version = 0 →
      LoadIndex env = Except.ok { env.raw with version := 1 }) := by
  refine ⟨fun h => ?_, fun h1 h2 => ?_, fun h1 h2 h3 => ?_, fun h1 h2 h3 h4 => ?_⟩
  · simp [LoadIndex, h]
  · simp [LoadIndex, h1, h2]
  · simp [LoadIndex, h1, h2, h3]
  · have h3' : ¬ env.datasetMtime > env.raw.epoch := not_lt.2 h3
    simp [LoadIndex, h1, h2, h3', h4]

theorem loadIndex_checks_witness :
    LoadIndex ⟨false, default, "d", 0⟩ = Except.error BsError.indexNotFound ∧
    LoadIndex ⟨true, { (default : Index) with filepath := "a", epoch := 5 }, "d", 9⟩ =
      Except.error BsError.indexPathMismatch ∧
    LoadIndex ⟨true, { (default : Index) with filepath := "d", epoch := 5 }, "d", 9⟩ =
      Except.error BsError.indexExpired ∧
    LoadIndex ⟨true, { (default : Index) with filepath := "d", epoch := 5, version := 0 }, "d", 4⟩ =
      Except.ok { ({ (default : Index) with filepath := "d", epoch := 5, version := 0 }) with version := 1 } :=
  ⟨(loadIndex_checks _).1 rfl,
   (loadIndex_checks _).2.1 rfl (by decide),
   (loadIndex_checks _).2.2.1 rfl rfl (by decide),
   (loadIndex_checks _).2.2.2 rfl rfl (by decide) rfl⟩

/- ## Claim C5 -/

theorem loPost_congr (s1 s2 : SearchCfg) (hm : s1.matchLE = s2.matchLE)
    (trailing : Int) (terminate : Bool) :
    loPost s1 trailing terminate = loPost s2 trailing terminate := by
  simp [loPost, hm]

theorem scanLineOffsetF_congr (s1 s2 : SearchCfg) (hc : s1.compare = s2.compare)
    (hm : s1.matchLE = s2.matchLE) (buf k : Bytes) :
    ∀ fuel off tr, scanLineOffsetF s1 buf k fuel off tr =
      scanLineOffsetF s2 buf k fuel off tr := by
  intro fuel
  induction fuel with
  | zero => intro off tr; rfl
  | succ f ih =>
    intro off tr
    simp only [scanLineOffsetF, hc, loPost_congr s1 s2 hm]
    by_cases h : off < buf.length
    · simp only [h, if_true]
      cases hidx : indexByte (buf.drop off) 10 <;> simp [hidx, ih]
    · simp [h]

theorem scanLinesMatchingF_congr (s1 s2 : SearchCfg) (hc : s1.compare = s2.compare)
    (buf b : Bytes) (n : Nat) :
    ∀ fuel off lines, scanLinesMatchingF s1 buf b n fuel off lines =
      scanLinesMatchingF s2 buf b n fuel off lines := by
  intro fuel
  induction fuel with
  | zero => intro off lines; rfl
  | succ f ih =>
    intro off lines
    simp only [scanLinesMatchingF, hc]
    by_cases h : off < buf.length
    · simp only [h, if_true]
      cases hidx : indexByte (buf.drop off) 10 <;> simp [hidx, ih]
    · simp [h]

/-- Results of `scanLinesMatching` depend only on the comparison function and
the matchLE flag of the configuration — in particular not on the boundary
flag, which the source never consults inside the scanners. -/
theorem scanLinesMatching_congr (s1 s2 : SearchCfg) (hc : s1.compare = s2.compare)
    (hm : s1.matchLE = s2.matchLE) (buf b : Bytes) (n : Nat) :
    scanLinesMatching s1 buf b n = scanLinesMatching s2 buf b n := by
  unfold scanLinesMatching scanLineOffset
  rw [scanLineOffsetF_congr s1 s2 hc hm]
  rcases hp : (scanLineOffsetF s2 buf b (buf.length + 1) 0 (-1)).getD (-1, false)
    with ⟨o, t⟩
  by_cases hcond : o = -1 ∨ t = true
  · simp [hcond]
  · simp only [hcond, if_false]
    rw [scanLinesMatchingF_congr s1 s2 hc]

/-- C5 (amended): `checkPrefixMatch` does implement the boundary rejection —
with the boundary option on, a prefix-equal line longer than the match is
returned empty (brk unset, no error) exactly when the bytes at positions
`len(b) - 1` and `len(b)` are both word characters or both non-word — but
`scanLinesMatching` never calls `checkPrefixMatch`: the lines the scan returns
are independent of the boundary option, so no line is excluded by it. -/
theorem checkPrefixMatch_rule_but_scan_ignores_boundary (s : SearchCfg)
    (bufa b : Bytes) (hb : s.boundary = true) (hcmp : PrefixCompare bufa b = 0)
    (hlen : b.length < bufa.length) :
    (checkPrefixMatch s bufa b =
      if isWordByte (bufa.getD (b.length - 1) 0) = isWordByte (bufa.getD b.length 0)
      then ([], false, false) else (bufa, false, false)) ∧
    (∀ s' : SearchCfg, s'.compare = s.compare → s'.matchLE = s.matchLE →
      ∀ buf key n, scanLinesMatching s' buf key n = scanLinesMatching s buf key n) := by
  constructor
  · have h1 : ¬ PrefixCompare bufa b < 0 := by rw [hcmp]; norm_num
    have h2 : ¬ PrefixCompare bufa b > 0 := by rw [hcmp]; norm_num
    simp only [checkPrefixMatch, h1, if_false, h2, hb, hlen, and_self, if_true,
      true_and]
    cases hw1 : isWordByte (bufa.getD (b.length - 1) 0) <;>
      cases hw2 : isWordByte (bufa.getD b.length 0) <;> simp [hw1, hw2]
  · intro s' hc hm buf key n
    exact scanLinesMatching_congr s' s hc hm buf key n

theorem checkPrefixMatch_rule_but_scan_ignores_boundary_witness :
    checkPrefixMatch ⟨PrefixCompare, false, true⟩ [97, 98, 99, 100] [97, 98] =
        ([], false, false) ∧
      scanLinesMatching ⟨PrefixCompare, false, false⟩ [97, 98, 99, 100, 10] [97, 98] 0 =
        scanLinesMatching ⟨PrefixCompare, false, true⟩ [97, 98, 99, 100, 10] [97, 98] 0 := by
  have h := checkPrefixMatch_rule_but_scan_ignores_boundary
    ⟨PrefixCompare, false, true⟩ [97, 98, 99, 100] [97, 98] rfl (by decide) (by decide)
  refine ⟨?_, h.2 ⟨PrefixCompare, false, false⟩ rfl rfl [97, 98, 99, 100, 10] [97, 98] 0⟩
  rw [h.1]
  decide

/-- C5 (counterexample): with the boundary option enabled, the line `abcd`
matched by `ab` has word characters on both sides of the match boundary, so
the claim says the scan excludes it; the scan returns it nevertheless (while
`checkPrefixMatch`, which nothing calls, would indeed reject it). -/
theorem scan_keeps_boundary_violating_line :
    scanLinesMatching ⟨PrefixCompare, false, true⟩ [97, 98, 99, 100, 10] [97, 98] 0 =
        ([[97, 98, 99, 100]], false) ∧
      isWordByte 98 = true ∧ isWordByte 99 = true ∧
      checkPrefixMatch ⟨PrefixCompare, false, true⟩ [97, 98, 99, 100] [97, 98] =
        ([], false, false) := by decide

/- ## Claim C8 -/

/-- C8 (amended): during line-scan index building, a key strictly below the
previous key takes the retroactive-header path — set `header`, reset the
entry list, continue — exactly when the running block number is 0 and no
header was declared or detected; that covers the second record, but also any
later violating record whose predecessor still lies in block 0. In every
other situation the build fails with the sort-violation error. -/
theorem genLineStep_sort_violation_cases (bs : Nat) (delim : Bytes)
    (st : LineIndexState) (line : Bytes) (hskip : st.skipHeader = false)
    (hviol : bytesCompare st.prevKey (splitFirst delim line) = 1) :
    (st.blockNumber = 0 ∧ st.header = false →
      genLineStep bs delim st line = Except.ok
        { st with
          header := true,
          list := [{ key := splitFirst delim line, offset := st.blockPosition,
                     length := 0 }],
          blockNumber := ((st.blockPosition / bs : Nat) : Int),
          blockPosition := st.blockPosition + line.length + 1,
          prevKey := splitFirst delim line }) ∧
    (¬ (st.blockNumber = 0 ∧ st.header = false) →
      genLineStep bs delim st line =
        Except.error (BsError.sortViolation st.prevKey (splitFirst delim line))) := by
  constructor
  · rintro ⟨hbn, hh⟩
    have hgt : (((st.blockPosition / bs : Nat) : Int)) > (-1 : Int) := by
      have : (0 : Int) ≤ ((st.blockPosition / bs : Nat) : Int) := Int.natCast_nonneg _
      omega
    simp only [genLineStep, hskip, Bool.false_eq_true, if_false, hviol, if_true,
      hbn, hh, and_self, Except.map, finalizeLast, List.getLast?, hgt,
      List.dropLast, List.nil_append]
  · intro hnot
    by_cases hbn : st.blockNumber = 0
    · have hh : ¬ st.header = false := fun h => hnot ⟨hbn, h⟩
      simp [genLineStep, hskip, hviol, hbn, hh, Except.map]
    · simp [genLineStep, hskip, hviol, hbn, Except.map]

theorem genLineStep_sort_violation_cases_witness :
    genLineStep 4096 [44]
        { list := [{ key := [98], offset := 0, length := 0 }], blockPosition := 8,
          blockNumber := 0, prevKey := [99], keysUnique := true, header := false,
          skipHeader := false } [97, 44, 51] = Except.ok
        { list := [{ key := [97], offset := 8, length := 0 }], blockPosition := 12,
          blockNumber := 0, prevKey := [97], keysUnique := true, header := true,
          skipHeader := false } ∧
      genLineStep 4096 [44]
        { list := [{ key := [98], offset := 0, length := 0 }], blockPosition := 8,
          blockNumber := 1, prevKey := [99], keysUnique := true, header := false,
          skipHeader := false } [97, 44, 51] =
        Except.error (BsError.sortViolation [99] [97]) := by
  constructor
  · have h := (genLineStep_sort_violation_cases 4096 [44]
      { list := [{ key := [98], offset := 0, length := 0 }], blockPosition := 8,
        blockNumber := 0, prevKey := [99], keysUnique := true, header := false,
        skipHeader := false } [97, 44, 51] rfl (by decide)).1 ⟨rfl, rfl⟩
    rw [h]
    rfl
  · exact (genLineStep_sort_violation_cases 4096 [44]
      { list := [{ key := [98], offset := 0, length := 0 }], blockPosition := 8,
        blockNumber := 1, prevKey := [99], keysUnique := true, header := false,
        skipHeader := false } [97, 44, 51] rfl (by decide)).2 (by simp)

/-- C8 (counterexample): dataset `b,1 / c,2 / a,3` with blocksize 4096 and no
header declared. The sort violation is at the third record (`a` below `c`),
yet the builder retroactively flips header, resets, and succeeds — the claim
allows the reset on the second record only and predicts failure here. -/
theorem lineIndex_third_record_resets_header :
    bytesCompare [99] [97] = 1 ∧
      generateLineIndex 4096 [44] false [[98, 44, 49], [99, 44, 50], [97, 44, 51]] =
        Except.ok ([{ key := [97], offset := 8, length := 4 }], true, true) :=
  ⟨rfl, rfl⟩

/- ## Claim C4 -/

/-- Index with a single entry whose key strictly extends the query key `a`;
`blockEntryLE`'s plain-compare guard fires although the prefix comparator
considers them equal. -/
def idxCE : Index :=
  { blocksize := 4096, delimiter := [44], epoch := 0, filepath := "", header := false,
    keysIndexFirst := false, keysUnique := true, length := 1,
    list := [{ key := [97, 98], offset := 0, length := 5 }], version := 2 }

/-- C4 (counterexample): on the single-entry index with key `ab` and query
`a`, `blockEntryLE` fails with `ErrIndexEntryNotFound` although the first
entry's key is *not* strictly greater than the query under the prefix
comparator (it compares equal) — the guard uses the plain bytewise order. -/
theorem blockEntryLE_error_despite_prefix_zero :
    idxCE.blockEntryLE [97] = Except.error BsError.indexEntryNotFound ∧
      prefixCompareString [97, 98] [97] = 0 ∧
      bytesCompare [97, 98] [97] = 1 := ⟨rfl, rfl, rfl⟩

theorem PrefixCompare_self (a : Bytes) : PrefixCompare a a = 0 := by
  simp [PrefixCompare, List.take_length, bytesCompare_self]

/-- Plainly not-greater byte strings never prefix-compare greater. -/
theorem PrefixCompare_le_zero_of_not_gt (a k : Bytes) (h : bytesCompare a k ≠ 1) :
    PrefixCompare a k ≤ 0 :=
  PrefixCompare_mono k a k h (le_of_eq (PrefixCompare_self k))

theorem pairwise_getD_not_gt (list : List IndexEntry)
    (hs : list.Pairwise (fun x y => bytesCompare x.key y.key ≠ 1))
    (i j : Nat) (hij : i < j) (hj : j < list.length) :
    bytesCompare (list.getD i default).key (list.getD j default).key ≠ 1 := by
  have hi : i < list.length := lt_trans hij hj
  rw [List.getD_eq_getElem list default hi, List.getD_eq_getElem list default hj]
  exact List.pairwise_iff_get.1 hs ⟨i, hi⟩ ⟨j, hj⟩ hij

/-- Midpoint rule of both binary-search loops: with `begin < end`, the
(possibly advanced) midpoint lies strictly above `begin` and at most `end`. -/
theorem mid_bounds (b e mid : Nat) (hbe : b < e)
    (hmid : mid = if (e - b) / 2 + b = b then (e - b) / 2 + b + 1 else (e - b) / 2 + b) :
    b < mid ∧ mid ≤ e := by
  have hdiv : (e - b) / 2 < e - b := Nat.div_lt_self (by omega) (by omega)
  by_cases h0 : (e - b) / 2 + b = b <;> simp only [h0, if_true, if_false] at hmid <;> omega

/-- When the midpoint hits `end`, the bracket had width one. -/
theorem mid_eq_end (b e mid : Nat) (hbe : b < e)
    (hmid : mid = if (e - b) / 2 + b = b then (e - b) / 2 + b + 1 else (e - b) / 2 + b)
    (hem : e = mid) : e = b + 1 := by
  have hdiv : (e - b) / 2 < e - b := Nat.div_lt_self (by omega) (by omega)
  by_cases h0 : (e - b) / 2 + b = b <;> simp only [h0, if_true, if_false] at hmid <;> omega

/-- Unfolded form of `leStep` under `begin < end`, with the comparator
written as `PrefixCompare` (to which `prefixCompareString` is equal). -/
theorem leStep_eq (list : List IndexEntry) (k : Bytes) (b e mid : Nat) (hbe : b < e)
    (hmid : mid = if (e - b) / 2 + b = b then (e - b) / 2 + b + 1 else (e - b) / 2 + b) :
    leStep list k b e =
      if PrefixCompare (list.getD mid default).key k ≤ 0 then some (mid, e)
      else if e = mid then none else some (b, mid) := by
  subst hmid
  simp only [leStep, if_pos hbe, prefixCompareString_eq_PrefixCompare]

/-- Unfolded form of `ltStep` under `begin < end`. -/
theorem ltStep_eq (list : List IndexEntry) (k : Bytes) (b e mid : Nat) (hbe : b < e)
    (hmid : mid = if (e - b) / 2 + b = b then (e - b) / 2 + b + 1 else (e - b) / 2 + b) :
    ltStep list k b e =
      if prefixCompare (list.getD mid default).key k = -1 then some (mid, e)
      else if e = mid then none else some (b, mid) := by
  subst hmid
  simp only [ltStep, if_pos hbe]

/-- Loop invariant of `blockEntryLE`: starting from a position whose key is
allowed (prefix-compare at most 0) with every position beyond `e` disallowed,
the loop lands on an allowed position with every later position disallowed —
that is, on the last entry at most the key. -/
theorem leLoopF_spec (list : List IndexEntry) (k : Bytes)
    (hs : list.Pairwise (fun x y => bytesCompare x.key y.key ≠ 1)) :
    ∀ fuel b e, e - b ≤ fuel → b ≤ e → e < list.length →
      PrefixCompare (list.getD b default).key k ≤ 0 →
      (∀ j, e < j → j < list.length →
        PrefixCompare (list.getD j default).key k = 1) →
      b ≤ leLoopF list k fuel b e ∧ leLoopF list k fuel b e < list.length ∧
        PrefixCompare (list.getD (leLoopF list k fuel b e) default).key k ≤ 0 ∧
        (∀ j, leLoopF list k fuel b e < j → j < list.length →
          PrefixCompare (list.getD j default).key k = 1) := by
  intro fuel
  induction fuel with
  | zero =>
    intro b e hf hbe helen hble hgt
    have hbeq : b = e := by omega
    subst hbeq
    have hrun : leLoopF list k 0 b b = b := rfl
    rw [hrun]
    exact ⟨le_refl _, by omega, hble, hgt⟩
  | succ f ih =>
    intro b e hf hbe helen hble hgt
    have hunfold : leLoopF list k (f + 1) b e =
        match leStep list k b e with
        | none => b
        | some (b', e') => leLoopF list k f b' e' := rfl
    by_cases hbelt : b < e
    · obtain ⟨hbmid, hmide⟩ := mid_bounds b e _ hbelt rfl
      have hstep := leStep_eq list k b e _ hbelt rfl
      by_cases hc : PrefixCompare
          (list.getD (if (e - b) / 2 + b = b then (e - b) / 2 + b + 1
            else (e - b) / 2 + b) default).key k ≤ 0
      · rw [if_pos hc] at hstep
        have hrun : leLoopF list k (f + 1) b e =
            leLoopF list k f (if (e - b) / 2 + b = b then (e - b) / 2 + b + 1
              else (e - b) / 2 + b) e := by
          rw [hunfold, hstep]
        rw [hrun]
        have hres := ih _ e (by omega) (by omega) helen hc hgt
        exact ⟨by omega, hres.2.1, hres.2.2.1, hres.2.2.2⟩
      · rw [if_neg hc] at hstep
        by_cases hem : e = (if (e - b) / 2 + b = b then (e - b) / 2 + b + 1
            else (e - b) / 2 + b)
        · rw [if_pos hem] at hstep
          have hone : e = b + 1 := mid_eq_end b e _ hbelt rfl hem
          have hrun : leLoopF list k (f + 1) b e = b := by rw [hunfold, hstep]
          rw [hrun]
          have hmid1 : PrefixCompare (list.getD e default).key k = 1 := by
            rw [hem]
            rcases PrefixCompare_trichotomy
              (list.getD (if (e - b) / 2 + b = b then (e - b) / 2 + b + 1
                else (e - b) / 2 + b) default).key k with h1 | h1 | h1 <;> omega
          refine ⟨le_refl _, by omega, hble, fun j hj hjl => ?_⟩
          by_cases hje : j = e
          · subst hje; exact hmid1
          · exact hgt j (by omega) hjl
        · rw [if_neg hem] at hstep
          have hrun : leLoopF list k (f + 1) b e =
              leLoopF list k f b (if (e - b) / 2 + b = b then (e - b) / 2 + b + 1
                else (e - b) / 2 + b) := by
            rw [hunfold, hstep]
          rw [hrun]
          have hmid1 : PrefixCompare
              (list.getD (if (e - b) / 2 + b = b then (e - b) / 2 + b + 1
                else (e - b) / 2 + b) default).key k = 1 := by
            rcases PrefixCompare_trichotomy
              (list.getD (if (e - b) / 2 + b = b then (e - b) / 2 + b + 1
                else (e - b) / 2 + b) default).key k with h1 | h1 | h1 <;> omega
          have hmidgt : ∀ j,
              (if (e - b) / 2 + b = b then (e - b) / 2 + b + 1
                else (e - b) / 2 + b) < j → j < list.length →
              PrefixCompare (list.getD j default).key k = 1 := by
            intro j hmj hjl
            by_cases hje : e < j
            · exact hgt j hje hjl
            · have hmono := pairwise_getD_not_gt list hs _ j hmj hjl
              rcases PrefixCompare_trichotomy (list.getD j default).key k
                with h1 | h1 | h1
              · have := PrefixCompare_mono k _ _ hmono (by omega)
                omega
              · have := PrefixCompare_mono k _ _ hmono (by omega)
                omega
              · exact h1
          exact ih b _ (by omega) (by omega) (by omega) hble hmidgt
    · have hbeq : b = e := by omega
      subst hbeq
      have hstep : leStep list k b b = none := by
        unfold leStep
        rw [if_neg (by omega)]
      have hrun : leLoopF list k (f + 1) b b = b := by rw [hunfold, hstep]
      rw [hrun]
      exact ⟨le_refl _, by omega, hble, hgt⟩

/-- C4 (amended): on a non-empty, bytewise-sorted entry list, `blockEntryLE`
fails with `ErrIndexEntryNotFound` exactly when the first entry's key is
strictly greater than the query in the *plain bytewise order* (not the prefix
comparator — see the counterexample); otherwise it returns the position and
value of the last entry whose key is at most the query under the prefix
comparator. -/
theorem blockEntryLE_guard_and_last_le (i : Index) (k : Bytes)
    (hne : i.list ≠ [])
    (hs : i.list.Pairwise (fun x y => bytesCompare x.key y.key ≠ 1)) :
    (i.blockEntryLE k = Except.error BsError.indexEntryNotFound ↔
      bytesCompare (i.list.getD 0 default).key k = 1) ∧
    (bytesCompare (i.list.getD 0 default).key k ≠ 1 →
      ∃ p, p < i.list.length ∧
        i.blockEntryLE k = Except.ok (p, i.list.getD p default) ∧
        prefixCompareString (i.list.getD p default).key k ≤ 0 ∧
        ∀ j, p < j → j < i.list.length →
          prefixCompareString (i.list.getD j default).key k = 1) := by
  have hlen : 0 < i.list.length := List.length_pos.2 hne
  constructor
  · constructor
    · intro h
      by_contra hg
      unfold Index.blockEntryLE at h
      rw [if_neg hg] at h
      exact Except.noConfusion h
    · intro hg
      unfold Index.blockEntryLE
      rw [if_pos hg]
  · intro hg
    have hble : PrefixCompare (i.list.getD 0 default).key k ≤ 0 :=
      PrefixCompare_le_zero_of_not_gt _ _ hg
    have hres := leLoopF_spec i.list k hs i.list.length 0 (i.list.length - 1)
      (by omega) (by omega) (by omega) hble (fun j hj hjl => by omega)
    refine ⟨leLoopF i.list k i.list.length 0 (i.list.length - 1), hres.2.1, ?_, ?_, ?_⟩
    · unfold Index.blockEntryLE
      rw [if_neg hg]
    · rw [prefixCompareString_eq_PrefixCompare]
      exact hres.2.2.1
    · intro j hj hjl
      rw [prefixCompareString_eq_PrefixCompare]
      exact hres.2.2.2 j hj hjl

/-- Two-entry sorted index used to witness `blockEntryLE_guard_and_last_le`. -/
def idxLE : Index :=
  { blocksize := 4096, delimiter := [44], epoch := 0, filepath := "", header := false,
    keysIndexFirst := false, keysUnique := true, length := 2,
    list := [{ key := [97], offset := 0, length := 4 },
             { key := [99], offset := 4, length := 4 }], version := 2 }

theorem blockEntryLE_guard_and_last_le_witness :
    (idxLE.blockEntryLE [98] = Except.error BsError.indexEntryNotFound ↔
      bytesCompare (idxLE.list.getD 0 default).key [98] = 1) ∧
    (bytesCompare (idxLE.list.getD 0 default).key [98] ≠ 1 →
      ∃ p, p < idxLE.list.length ∧
        idxLE.blockEntryLE [98] = Except.ok (p, idxLE.list.getD p default) ∧
        prefixCompareString (idxLE.list.getD p default).key [98] ≤ 0 ∧
        ∀ j, p < j → j < idxLE.list.length →
          prefixCompareString (idxLE.list.getD j default).key [98] = 1) :=
  blockEntryLE_guard_and_last_le idxLE [98] (by decide) (by decide)

/- ## Claim C9 -/

theorem leStep_progress (list : List IndexEntry) (k : Bytes) (b e b' e' : Nat)
    (h : leStep list k b e = some (b', e')) : e' - b' < e - b := by
  by_cases hbe : b < e
  · obtain ⟨hbmid, hmide⟩ := mid_bounds b e _ hbe rfl
    rw [leStep_eq list k b e _ hbe rfl] at h
    by_cases hc : PrefixCompare
        (list.getD (if (e - b) / 2 + b = b then (e - b) / 2 + b + 1
          else (e - b) / 2 + b) default).key k ≤ 0
    · rw [if_pos hc] at h
      simp only [Option.some.injEq, Prod.mk.injEq] at h
      omega
    · rw [if_neg hc] at h
      by_cases hem : e = (if (e - b) / 2 + b = b then (e - b) / 2 + b + 1
          else (e - b) / 2 + b)
      · rw [if_pos hem] at h
        exact absurd h (by simp)
      · rw [if_neg hem] at h
        simp only [Option.some.injEq, Prod.mk.injEq] at h
        omega
  · unfold leStep at h
    rw [if_neg hbe] at h
    exact absurd h (by simp)

theorem ltStep_progress (list : List IndexEntry) (k : Bytes) (b e b' e' : Nat)
    (h : ltStep list k b e = some (b', e')) : e' - b' < e - b := by
  by_cases hbe : b < e
  · obtain ⟨hbmid, hmide⟩ := mid_bounds b e _ hbe rfl
    rw [ltStep_eq list k b e _ hbe rfl] at h
    by_cases hc : prefixCompare
        (list.getD (if (e - b) / 2 + b = b then (e - b) / 2 + b + 1
          else (e - b) / 2 + b) default).key k = -1
    · rw [if_pos hc] at h
      simp only [Option.some.injEq, Prod.mk.injEq] at h
      omega
    · rw [if_neg hc] at h
      by_cases hem : e = (if (e - b) / 2 + b = b then (e - b) / 2 + b + 1
          else (e - b) / 2 + b)
      · rw [if_pos hem] at h
        exact absurd h (by simp)
      · rw [if_neg hem] at h
        simp only [Option.some.injEq, Prod.mk.injEq] at h
        omega
  · unfold ltStep at h
    rw [if_neg hbe] at h
    exact absurd h (by simp)

theorem leStep_none_of_zero (list : List IndexEntry) (k : Bytes) (b e : Nat)
    (h : e - b = 0) : leStep list k b e = none := by
  unfold leStep
  rw [if_neg (by omega)]

theorem ltStep_none_of_zero (list : List IndexEntry) (k : Bytes) (b e : Nat)
    (h : e - b = 0) : ltStep list k b e = none := by
  unfold ltStep
  rw [if_neg (by omega)]

theorem leLoopF_stable (list : List IndexEntry) (k : Bytes) :
    ∀ fuel fuel' b e, e - b ≤ fuel → e - b ≤ fuel' →
      leLoopF list k fuel b e = leLoopF list k fuel' b e := by
  intro fuel
  induction fuel with
  | zero =>
    intro fuel' b e hf hf'
    have hstep := leStep_none_of_zero list k b e (by omega)
    cases fuel' with
    | zero => rfl
    | succ f' =>
      show leLoopF list k 0 b e = match leStep list k b e with
        | none => b
        | some (b', e') => leLoopF list k f' b' e'
      rw [hstep]
      rfl
  | succ f ih =>
    intro fuel' b e hf hf'
    cases hstep : leStep list k b e with
    | none =>
      cases fuel' with
      | zero =>
        show (match leStep list k b e with
          | none => b
          | some (b', e') => leLoopF list k f b' e') = b
        rw [hstep]
      | succ f' =>
        show (match leStep list k b e with
          | none => b
          | some (b', e') => leLoopF list k f b' e') =
          match leStep list k b e with
          | none => b
          | some (b', e') => leLoopF list k f' b' e'
        rw [hstep]
    | some pe =>
      obtain ⟨b', e'⟩ := pe
      have hprog := leStep_progress list k b e b' e' hstep
      cases fuel' with
      | zero => omega
      | succ f' =>
        show (match leStep list k b e with
          | none => b
          | some (b', e') => leLoopF list k f b' e') =
          match leStep list k b e with
          | none => b
          | some (b', e') => leLoopF list k f' b' e'
        rw [hstep]
        exact ih f' b' e' (by omega) (by omega)

theorem ltLoopF_stable (list : List IndexEntry) (k : Bytes) :
    ∀ fuel fuel' b e, e - b ≤ fuel → e - b ≤ fuel' →
      ltLoopF list k fuel b e = ltLoopF list k fuel' b e := by
  intro fuel
  induction fuel with
  | zero =>
    intro fuel' b e hf hf'
    have hstep := ltStep_none_of_zero list k b e (by omega)
    cases fuel' with
    | zero => rfl
    | succ f' =>
      show ltLoopF list k 0 b e = match ltStep list k b e with
        | none => b
        | some (b', e') => ltLoopF list k f' b' e'
      rw [hstep]
      rfl
  | succ f ih =>
    intro fuel' b e hf hf'
    cases hstep : ltStep list k b e with
    | none =>
      cases fuel' with
      | zero =>
        show (match ltStep list k b e with
          | none => b
          | some (b', e') => ltLoopF list k f b' e') = b
        rw [hstep]
      | succ f' =>
        show (match ltStep list k b e with
          | none => b
          | some (b', e') => ltLoopF list k f b' e') =
          match ltStep list k b e with
          | none => b
          | some (b', e') => ltLoopF list k f' b' e'
        rw [hstep]
    | some pe =>
      obtain ⟨b', e'⟩ := pe
      have hprog := ltStep_progress list k b e b' e' hstep
      cases fuel' with
      | zero => omega
      | succ f' =>
        show (match ltStep list k b e with
          | none => b
          | some (b', e') => ltLoopF list k f b' e') =
          match ltStep list k b e with
          | none => b
          | some (b', e') => ltLoopF list k f' b' e'
        rw [hstep]
        exact ih f' b' e' (by omega) (by omega)

/-- C9: the binary-search loops of `blockEntryLE` and `blockEntryLT`
terminate — every non-exiting iteration of either loop strictly decreases
`end - begin`, both loops exit as soon as `end - begin` reaches 0, and the
result is stable under any fuel of at least `end - begin` iterations. -/
theorem blockEntry_loops_terminate (list : List IndexEntry) (k : Bytes) (b e : Nat) :
    (∀ b' e', leStep list k b e = some (b', e') → e' - b' < e - b) ∧
    (∀ b' e', ltStep list k b e = some (b', e') → e' - b' < e - b) ∧
    (e - b = 0 → leStep list k b e = none ∧ ltStep list k b e = none) ∧
    (∀ fuel, e - b ≤ fuel →
      leLoopF list k fuel b e = leLoopF list k (e - b) b e ∧
      ltLoopF list k fuel b e = ltLoopF list k (e - b) b e) :=
  ⟨fun b' e' h => leStep_progress list k b e b' e' h,
   fun b' e' h => ltStep_progress list k b e b' e' h,
   fun h => ⟨leStep_none_of_zero list k b e h, ltStep_none_of_zero list k b e h⟩,
   fun fuel hf => ⟨leLoopF_stable list k fuel (e - b) b e hf (le_refl _),
     ltLoopF_stable list k fuel (e - b) b e hf (le_refl _)⟩⟩

theorem blockEntry_loops_terminate_witness :
    (2 : Nat) - 1 < 2 - 0 ∧
      leLoopF idxLE.list [99] 7 0 1 = leLoopF idxLE.list [99] (1 - 0) 0 1 :=
  ⟨(blockEntry_loops_terminate idxLE.list [99] 0 2).1 1 2 (by decide),
   ((blockEntry_loops_terminate idxLE.list [99] 0 1).2.2.2 7 (by omega)).1⟩

/- ## Claims C1 and C2 -/

/-- Default searcher configuration of `NewSearcher` (bsearch.go 132-141):
`PrefixCompare` comparison, no matchLE, no boundary. -/
def defaultCfg : SearchCfg := { compare := PrefixCompare, matchLE := false, boundary := false }

/-- Sorted dataset of three lines sharing the key `aa`. -/
def dupLines : List Bytes := [[97, 97, 44, 49], [97, 97, 44, 50], [97, 97, 44, 51]]

/-- Block index of `dupLines` with one 5-byte line per block: entry keys are
the first keys of the blocks, offsets and lengths tile the 15-byte dataset. -/
def dupIdx : Index :=
  { blocksize := 5, delimiter := [44], epoch := 0, filepath := "", header := false,
    keysIndexFirst := false, keysUnique := false, length := 3,
    list := [{ key := [97, 97], offset := 0, length := 5 },
             { key := [97, 97], offset := 5, length := 5 },
             { key := [97, 97], offset := 10, length := 5 }], version := 2 }

/-- C1 (failing input): on the sorted dataset `aa,1 / aa,2 / aa,3` whose
duplicate-key run spans three blocks, the scan — started at `blockEntryLE`
per the spec's dispatch — begins at the *last* block whose entry key is at
most the key, so `Line("aa")` returns `aa,3` while the naive linear scan's
first match is `aa,1`. The repository's own multi-block tests assert the
linear-scan behaviour, so the claim is right and the modelled start position
loses the earlier duplicates. -/
theorem line_misses_earlier_duplicate :
    Line defaultCfg dupIdx (joinLines dupLines) [97, 97] = Except.ok [97, 97, 44, 51] ∧
      naiveLine [44] dupLines [97, 97] = some [97, 97, 44, 49] ∧
      ([97, 97, 44, 51] : Bytes) ≠ [97, 97, 44, 49] ∧
      dupLines.Pairwise (fun x y => bytesCompare x y ≠ 1) :=
  ⟨rfl, rfl, by decide, by decide⟩

/-- Sorted dataset of three lines sharing the key `ab`. -/
def dupLines2 : List Bytes := [[97, 98, 44, 49], [97, 98, 44, 50], [97, 98, 44, 51]]

/-- Block index of `dupLines2` with one 5-byte line per block. -/
def dupIdx2 : Index :=
  { blocksize := 5, delimiter := [44], epoch := 0, filepath := "", header := false,
    keysIndexFirst := false, keysUnique := false, length := 3,
    list := [{ key := [97, 98], offset := 0, length := 5 },
             { key := [97, 98], offset := 5, length := 5 },
             { key := [97, 98], offset := 10, length := 5 }], version := 2 }

/-- C2 (failing input): on the sorted dataset `ab,1 / ab,2 / ab,3` with the
duplicate run spanning three blocks, `Lines("ab")` started at the
`blockEntryLE` position returns only the final line, not the maximal
contiguous run of key-`ab` lines the claim (and the repository's multi-block
tests) require. -/
theorem lines_miss_earlier_duplicates :
    Lines defaultCfg dupIdx2 (joinLines dupLines2) [97, 98] =
        Except.ok [[97, 98, 44, 51]] ∧
      naiveMatches [44] dupLines2 [97, 98] = dupLines2 ∧
      ([[97, 98, 44, 51]] : List Bytes) ≠ dupLines2 ∧
      dupLines2.Pairwise (fun x y => bytesCompare x y ≠ 1) :=
  ⟨rfl, rfl, by decide, by decide⟩

/- ## Claim C6 -/

/-- Sorted two-line pipe-delimited dataset `ab|x`, `az|y`; no line has key
`a`, yet both lines compare below the search sequence `a|` because the pipe
byte (124) exceeds the key bytes. -/
def linesH : List Bytes := [[97, 98, 124, 120], [97, 122, 124, 121]]

/-- Dataset image of `linesH`. -/
def dataH : Bytes := joinLines linesH

/-- Block index of `dataH` with one 5-byte line per block. -/
def idxH : Index :=
  { blocksize := 5, delimiter := [124], epoch := 0, filepath := "", header := false,
    keysIndexFirst := false, keysUnique := true, length := 2,
    list := [{ key := [97, 98], offset := 0, length := 5 },
             { key := [97, 122], offset := 5, length := 5 }], version := 2 }

/-- Per-block decompression oracle for `dataH`: each block decompresses to
the corresponding byte range of the logical dataset. -/
def dblockH : IndexEntry → Bytes := fun entry => readBlockEntry dataH entry

/-- The compressed block loop reaches the fixed point (e = 0, entry 1, no
lines): because the source never increments `e`, every continuation fetches
entry `e + 1 = 1` again, scans the same non-terminating block, and recurses
into the identical state — no fuel suffices. -/
theorem scanCompressedFromF_H_fixed (fuel : Nat) :
    scanCompressedFromF defaultCfg idxH dblockH [97, 124] 0 fuel 0
      { key := [97, 122], offset := 5, length := 5 } [] = none := by
  induction fuel with
  | zero => rfl
  | succ f ih => exact ih

/-- C6: at the no-match key `a` on the valid dataset `linesH`, the indexed
(uncompressed) path does return `ErrNotFound` with an empty result, but the
compressed path never returns at all — `scanCompressedLines` re-reads entry
`e + 1` forever because `e` is never incremented (bsearch.go 457), instead of
returning the empty list without error as the claim states. -/
theorem compressed_no_match_never_returns :
    (∀ fuel, scanCompressedLines defaultCfg idxH dblockH [97] 0 fuel = none) ∧
      scanIndexedLines defaultCfg idxH dataH [97] 0 = Except.error BsError.notFound ∧
      naiveMatches [124] linesH [97] = [] ∧
      linesH.Pairwise (fun x y => bytesCompare x y ≠ 1) := by
  refine ⟨fun fuel => ?_, rfl, by decide, by decide⟩
  cases fuel with
  | zero => rfl
  | succ f =>
    have h : scanCompressedLines defaultCfg idxH dblockH [97] 0 (f + 1) =
        scanCompressedFromF defaultCfg idxH dblockH [97, 124] 0 f 0
          { key := [97, 122], offset := 5, length := 5 } [] := rfl
    rw [h]
    exact scanCompressedFromF_H_fixed f
